import Mathlib

/-!
Verification of the extraction / dispatch / normalization core of the
article-scraper repository (`main.py`, `db_viewer.py`).

Strings are modelled as `List Char` (`Str`), HTML documents as the
observable interface the code reads through BeautifulSoup: for each
CSS selector the list of matching elements, each element being the list
of its text segments (BeautifulSoup joins these segments in `get_text`).
-/

abbrev Str := List Char

def str (s : String) : Str := s.data

/-- Python's `\s` / `str.strip` whitespace class (ASCII fragment). -/
def isPySpace (c : Char) : Bool :=
  c = ' ' || c = '\t' || c = '\n' || c = '\r' || c = '\x0b' || c = '\x0c'

/-- Python `str.strip()`: drop leading and trailing whitespace. -/
def pyStrip (s : Str) : Str :=
  ((s.dropWhile isPySpace).reverse.dropWhile isPySpace).reverse

/-- An HTML element as observed through BeautifulSoup `get_text`:
the list of its descendant text segments, in document order. -/
structure Element where
  segments : List Str
deriving DecidableEq

/-- BeautifulSoup `element.get_text(separator=' ', strip=True)`:
strip each segment, drop empties, join with single spaces. -/
def Element.textSpaced (e : Element) : Str :=
  List.intercalate [' '] ((e.segments.map pyStrip).filter (fun s => !s.isEmpty))

/-- BeautifulSoup `element.get_text(strip=True)` (default separator `''`):
strip each segment, drop empties, concatenate. -/
def Element.textStripJoin (e : Element) : Str :=
  List.flatten ((e.segments.map pyStrip).filter (fun s => !s.isEmpty))

/-- BeautifulSoup `element.get_text()`: concatenate all segments. -/
def Element.textRaw (e : Element) : Str :=
  List.flatten e.segments

/-- A parsed document, as observed by the extractor (`main.py`).
`contentMatches`, `paragraphs` and `body` reflect the working tree after
`_extract_main_content` decomposes script/style/nav/header/footer/aside
elements (title and author run before that mutation). Meta fields hold the
tag's `content` attribute (already `.strip()`ped), `none` when the tag is
absent. -/
structure Doc where
  h1 : Option Element
  titleTag : Option Element
  ogTitle : Option Str
  twitterTitle : Option Str
  h2 : Option Element
  metaAuthor : Option Str
  metaArticleAuthor : Option Str
  authorMatches : String → List Element
  contentMatches : String → List Element
  paragraphs : List Element
  body : Option Element

/-- Helper for `netloc`: the text after the first `//` of the URL. -/
def afterSlashes : Str → Str
  | [] => []
  | '/' :: '/' :: rest => rest
  | _ :: rest => afterSlashes rest

/-- `urlparse(url).netloc` for URLs carrying a scheme: the text after the
first `//` up to the next `/`, `?` or `#`. -/
def netloc (url : Str) : Str :=
  (afterSlashes url).takeWhile (fun c => !(c = '/' || c = '?' || c = '#'))

/-- `UniversalWebScraper._extract_title`: the ordered candidate texts, each
already stripped, `none` when the element/tag is missing. -/
def titleCandidates (d : Doc) : List (Option Str) :=
  [ d.h1.map (fun e => pyStrip e.textRaw)
  , d.titleTag.map (fun e => pyStrip e.textRaw)
  , d.ogTitle.map pyStrip
  , d.twitterTitle.map pyStrip
  , d.h2.map (fun e => pyStrip e.textRaw) ]

/-- The loop of `_extract_title`: first present candidate whose text is
non-empty and longer than 3 characters wins, truncated to 200
(`if title and len(title) > 3: return title[:200]`). -/
def titleLoop (cands : List (Option Str)) (fallback : Str) : Str :=
  match cands with
  | [] => fallback
  | none :: rest => titleLoop rest fallback
  | some t :: rest =>
      if t ≠ [] ∧ t.length > 3 then t.take 200 else titleLoop rest fallback

/-- `UniversalWebScraper._extract_title(soup, url)`. -/
def extract_title (d : Doc) (url : Str) : Str :=
  titleLoop (titleCandidates d) (str "Article from " ++ netloc url)

/-- Reformulation following the claim wording of title resolution: evaluate
the candidates in order, skip every candidate of length < 4, return the first
of length ≥ 4 truncated to 200 characters, else synthesize from the host. -/
def titleSpec (d : Doc) (url : Str) : Str :=
  match ((titleCandidates d).filterMap id).filter (fun t => decide (t.length ≥ 4)) with
  | [] => str "Article from " ++ netloc url
  | t :: _ => t.take 200

/-- The ordered CSS selector list of `_extract_author`. -/
def author_selectors : List String :=
  [ "[class*=\"author\"]"
  , "[class*=\"byline\"]"
  , "[class*=\"writer\"]"
  , "[rel=\"author\"]"
  , ".author-name"
  , ".byline"
  , ".post-author"
  , ".author"
  , ".writer"
  , ".by-author" ]

/-- The character class of `re.search` in `_extract_author`
(`[<>@#$%^&*()+=\[\]{}|\\:";\'<>?,./]`), duplicates removed. -/
def disallowedAuthorChars : Str :=
  [ '<', '>', '@', '#', '$', '%', '^', '&', '*', '(', ')', '+', '='
  , '[', ']', '\x7b', '\x7d', '|', '\\', ':', '"', ';', '\'', '?', ',', '.', '/' ]

def hasDisallowedChar (s : Str) : Bool :=
  s.any (fun c => disallowedAuthorChars.contains c)

/-- The inner acceptance test of the CSS-selector loop in `_extract_author`:
`if author and len(author) < 100 and len(author) > 2` and no character of the
disallowed class occurs. -/
def cssAuthorAccept (a : Str) : Bool :=
  !a.isEmpty && decide (a.length < 100) && decide (a.length > 2) && !hasDisallowedChar a

/-- All texts produced by the CSS-selector pass of `_extract_author`, in loop
order: `element.get_text().strip()` for each match of each selector. -/
def cssAuthorTexts (d : Doc) : List Str :=
  author_selectors.flatMap (fun sel => (d.authorMatches sel).map (fun e => pyStrip e.textRaw))

/-- The CSS-selector pass of `_extract_author`: first accepted text, else
`"Unknown"`. -/
def authorFromCss (d : Doc) : Str :=
  match (cssAuthorTexts d).find? cssAuthorAccept with
  | some a => a
  | none => str "Unknown"

/-- The `article:author` meta step of `_extract_author` and everything after
it. The meta branch accepts any non-empty text of length < 100. -/
def authorAfterMeta1 (d : Doc) : Str :=
  match d.metaArticleAuthor with
  | some a => if a ≠ [] ∧ a.length < 100 then a else authorFromCss d
  | none => authorFromCss d

/-- `UniversalWebScraper._extract_author(soup)`: `author` meta tag, then
`article:author` meta property, then the CSS-selector pass, else
`"Unknown"`. -/
def extract_author (d : Doc) : Str :=
  match d.metaAuthor with
  | some a => if a ≠ [] ∧ a.length < 100 then a else authorAfterMeta1 d
  | none => authorAfterMeta1 d

/-- The ordered selector list of `_extract_main_content`. -/
def content_selectors : List String :=
  [ "article"
  , "[class*=\"content\"]"
  , "[class*=\"post-content\"]"
  , "[class*=\"entry-content\"]"
  , "[class*=\"article-content\"]"
  , "[class*=\"post-body\"]"
  , "[class*=\"story-body\"]"
  , "[class*=\"article-body\"]"
  , "main"
  , ".content"
  , ".post"
  , ".article"
  , ".story" ]

/-- All candidate texts of the selector pass of `_extract_main_content`, in
loop order: `element.get_text(separator=' ', strip=True)` for each match of
each selector. -/
def contentCandidateTexts (d : Doc) : List Str :=
  content_selectors.flatMap (fun sel => (d.contentMatches sel).map Element.textSpaced)

/-- One iteration of the selector loop of `_extract_main_content`:
`if len(text) > max_length and len(text) > 100` update both the best text and
the running maximum. -/
def contentStep (acc : Str × Nat) (t : Str) : Str × Nat :=
  if t.length > acc.2 ∧ t.length > 100 then (t, t.length) else acc

/-- The full selector pass: fold `contentStep` over all candidate texts,
starting from `best_content = ""`, `max_length = 0`. -/
def bestSelectorPass (d : Doc) : Str × Nat :=
  (contentCandidateTexts d).foldl contentStep ([], 0)

/-- The paragraph fallback text of `_extract_main_content`:
`' '.join(p.get_text(strip=True) for p in paragraphs if p.get_text(strip=True))`. -/
def paragraphText (d : Doc) : Str :=
  List.intercalate [' '] ((d.paragraphs.map Element.textStripJoin).filter (fun s => !s.isEmpty))

/-- Paragraph fallback: taken when the best content is empty or shorter than
200 and the paragraph text is strictly longer than the current best. -/
def contentAfterParagraphs (d : Doc) (best : Str) : Str :=
  if best = [] ∨ best.length < 200 then
    if (paragraphText d).length > best.length then paragraphText d else best
  else best

/-- Body fallback: when the content is still empty or shorter than 100 and a
`body` element exists, replace it (unconditionally) by the body text. -/
def contentAfterBody (d : Doc) (best : Str) : Str :=
  if best = [] ∨ best.length < 100 then
    match d.body with
    | some b => b.textSpaced
    | none => best
  else best

/-- The value of `best_content` in `_extract_main_content` just before the
final `return`. -/
def content_after_fallbacks (d : Doc) : Str :=
  contentAfterBody d (contentAfterParagraphs d (bestSelectorPass d).1)

/-- `UniversalWebScraper._extract_main_content(soup)`:
`return best_content[:10000] if best_content else "No content extracted"`. -/
def extract_main_content (d : Doc) : Str :=
  if content_after_fallbacks d ≠ [] then (content_after_fallbacks d).take 10000
  else str "No content extracted"

/-- The record dict built by `scrape_url`. -/
structure ArticleRec where
  title : Str
  author : Str
  content : Str
  source_url : Str
deriving DecidableEq

/-- `UniversalWebScraper._clean_url`. -/
def clean_url (url : Str) : Str :=
  if (str "http://").isPrefixOf url || (str "https://").isPrefixOf url then url
  else str "https://" ++ url

/-- The successful-response branch of `UniversalWebScraper.scrape_url`: the
page was fetched with status 200 and parsed into `d`; extract the three
fields and discard the record when
`if not content or len(content) < 50: return None`. Fetch failures
(non-200, timeout, exception) return `None` before this point. -/
def scrape_url_extract (d : Doc) (url : Str) : Option ArticleRec :=
  if extract_main_content d = [] ∨ (extract_main_content d).length < 50 then none
  else some ⟨extract_title d (clean_url url), extract_author d,
             extract_main_content d, clean_url url⟩

/-- Outcome of one task of `scrape_multiple_urls` as seen by the collection
loop after `asyncio.gather(..., return_exceptions=True)`: a record dict, a
`None` from `scrape_url`, or an exception object. -/
inductive TaskResult where
  | ok (r : ArticleRec)
  | noRecord
  | raised
deriving DecidableEq

def TaskResult.record? : TaskResult → Option ArticleRec
  | .ok r => some r
  | .noRecord => none
  | .raised => none

def TaskResult.isOk : TaskResult → Bool
  | .ok _ => true
  | _ => false

/-- The collection loop of `scrape_multiple_urls`: keep the results that are
dicts, log and drop exceptions, drop `None`s. -/
def collectArticles (results : List TaskResult) : List ArticleRec :=
  results.foldl
    (fun acc r => match r with | .ok a => acc ++ [a] | _ => acc) []

/-- `UniversalWebScraper.scrape_multiple_urls(urls, max_concurrent)`, with the
per-URL behaviour abstracted as `scrape : Str → TaskResult` (the semaphore
affects scheduling only, not which tasks succeed; see the dispatch model
below for the concurrency bound). -/
def scrape_multiple_urls (scrape : Str → TaskResult) (urls : List Str) : List ArticleRec :=
  collectArticles (urls.map scrape)

/-- State of the bounded dispatcher of `scrape_multiple_urls`: the semaphore
counter, the number of tasks inside `async with semaphore` (fetch in flight),
and the tasks not yet granted / already completed. -/
structure DispatchState where
  available : Nat
  inflight : Nat
  pending : Nat
  done : Nat
deriving DecidableEq

/-- Atomic transitions of the dispatcher: a pending task may enter the
semaphore only while the counter is positive (`asyncio.Semaphore` blocks
otherwise), and a task inside releases the counter when it finishes. -/
inductive DispatchStep : DispatchState → DispatchState → Prop
  | acquire (s : DispatchState) (ha : 0 < s.available) (hp : 0 < s.pending) :
      DispatchStep s ⟨s.available - 1, s.inflight + 1, s.pending - 1, s.done⟩
  | finish (s : DispatchState) (hr : 0 < s.inflight) :
      DispatchStep s ⟨s.available + 1, s.inflight - 1, s.pending, s.done + 1⟩

/-- Initial dispatcher state: `asyncio.Semaphore(max_concurrent)` fresh, all
`n` tasks pending. -/
def initState (k n : Nat) : DispatchState := ⟨k, 0, n, 0⟩

/-- States reachable by the dispatcher during one batch. -/
def DispatchReachable (k n : Nat) (s : DispatchState) : Prop :=
  Relation.ReflTransGen DispatchStep (initState k n) s

/-- Does `rest` begin a tag after a `<`? `html.parser` opens markup on a
letter (start tag), `/` (end tag), `!` (declaration/comment) or `?`
(processing instruction); any other `<` is literal text. -/
def tagStarts : Str → Bool
  | [] => false
  | c :: _ => c.isAlpha || c = '/' || c = '!' || c = '?'

/-- `BeautifulSoup(text, 'html.parser').get_text()` as used by
`TextProcessor.preprocess_text` on already-extracted text. The flag says
whether the scanner is inside a tag (tag characters are markup, not data).
Outside a tag: a `<` opening a tag switches the flag, any other `<` is
literal text; character references (`&lt;` `&gt;` `&amp;` — the ones
relevant to round-tripping markup) are decoded to the characters they name
and emitted as data, not re-parsed, exactly as `html.parser` emits a
charref; everything else is kept.
The recursion is fuelled to stay structural: every recursive call consumes
at least one input character and one unit of fuel, so `length + 1` fuel
always suffices. -/
def stripAux : Nat → Bool → Str → Str
  | 0, _, _ => []
  | _ + 1, _, [] => []
  | f + 1, true, c :: rest =>
      if c = '>' then stripAux f false rest else stripAux f true rest
  | f + 1, false, c :: rest =>
      if c = '<' then
        if tagStarts rest then stripAux f true rest else '<' :: stripAux f false rest
      else if c = '&' then
        match rest with
        | 'l' :: 't' :: ';' :: rest2 => '<' :: stripAux f false rest2
        | 'g' :: 't' :: ';' :: rest2 => '>' :: stripAux f false rest2
        | 'a' :: 'm' :: 'p' :: ';' :: rest2 => '&' :: stripAux f false rest2
        | _ => '&' :: stripAux f false rest
      else c :: stripAux f false rest

/-- Tag removal of `BeautifulSoup(text, 'html.parser').get_text()`. -/
def stripTags (s : Str) : Str := stripAux (s.length + 1) false s

/-- `re.sub(r'\s+', ' ', text)`: replace every maximal run of whitespace by a
single space. -/
def collapseWs : Str → Str
  | [] => []
  | [c] => if isPySpace c then [' '] else [c]
  | c1 :: c2 :: rest =>
      if isPySpace c1 then
        if isPySpace c2 then collapseWs (c2 :: rest)
        else ' ' :: collapseWs (c2 :: rest)
      else c1 :: collapseWs (c2 :: rest)

/-- `re.sub(r'\n+', '\n', text)`: collapse runs of newlines. -/
def collapseNl : Str → Str
  | [] => []
  | [c] => [c]
  | c1 :: c2 :: rest =>
      if c1 = '\n' ∧ c2 = '\n' then collapseNl (c2 :: rest)
      else c1 :: collapseNl (c2 :: rest)

/-- ASCII case folding of `str.lower()` (the fragment relevant here). -/
def lowerChar (c : Char) : Char :=
  if c = 'A' then 'a' else if c = 'B' then 'b' else if c = 'C' then 'c'
  else if c = 'D' then 'd' else if c = 'E' then 'e' else if c = 'F' then 'f'
  else if c = 'G' then 'g' else if c = 'H' then 'h' else if c = 'I' then 'i'
  else if c = 'J' then 'j' else if c = 'K' then 'k' else if c = 'L' then 'l'
  else if c = 'M' then 'm' else if c = 'N' then 'n' else if c = 'O' then 'o'
  else if c = 'P' then 'p' else if c = 'Q' then 'q' else if c = 'R' then 'r'
  else if c = 'S' then 's' else if c = 'T' then 't' else if c = 'U' then 'u'
  else if c = 'V' then 'v' else if c = 'W' then 'w' else if c = 'X' then 'x'
  else if c = 'Y' then 'y' else if c = 'Z' then 'z' else c

def lowerStr (s : Str) : Str := s.map lowerChar

/-- `TextProcessor.preprocess_text(text)`: empty in, empty out; otherwise
strip HTML via BeautifulSoup, collapse whitespace, `strip()`, collapse
newline runs, lowercase. -/
def preprocess_text (text : Str) : Str :=
  if text = [] then []
  else lowerStr (collapseNl (pyStrip (collapseWs (stripTags text))))

/-- An article dict as stored by `DatabaseManager.store_article`. -/
structure StoredArticle where
  title : Str
  author : Str
  content : Str
  summary : Str
  source_url : Str
deriving DecidableEq

/-- The summary step of `ArticleProcessor.process_articles`: when the cleaned
content is non-empty and a summarizer exists, call it — its own `try/except`
degrades a raised error to `"Summary generation failed"`; otherwise
`"No summary available"`. -/
def articleSummary (summarize : Option (Str → Except Unit Str)) (clean : Str) : Str :=
  match summarize with
  | some f =>
      if clean ≠ [] then
        match f clean with
        | .ok s => s
        | .error _ => str "Summary generation failed"
      else str "No summary available"
  | none => str "No summary available"

/-- The per-article enrichment of `process_articles`: preprocess the content
and attach the summary. -/
def enrich (summarize : Option (Str → Except Unit Str)) (a : ArticleRec) : StoredArticle :=
  let clean := preprocess_text a.content
  ⟨a.title, a.author, clean, articleSummary summarize clean, a.source_url⟩

/-- `ArticleProcessor.process_articles` after scraping, with the storage
layer abstracted as `store` (`DatabaseManager.store_article` re-raises its
exceptions) and the summarizer as `summarize`. The result type `Except`
records whether the workflow raises to its caller: the per-article
`try/except ... continue` catches a raising `store`, logs, skips the article
and continues, and the surrounding `try/except` also only logs, so the
function always returns `Except.ok` with the ids of the stored articles. -/
def process_articles (store : StoredArticle → Except String Nat)
    (summarize : Option (Str → Except Unit Str)) (articles : List ArticleRec) :
    Except String (List Nat) :=
  .ok (articles.foldl
    (fun ids a =>
      match store (enrich summarize a) with
      | .ok i => ids ++ [i]
      | .error _ => ids) [])

/-- SQLite `LIKE` comparison of single characters: case-insensitive for
ASCII letters. -/
def likeCharEq (p c : Char) : Bool := lowerChar p = lowerChar c

/-- SQLite `LIKE` pattern matching against a text, fuelled so that the
recursion is structural (every step shortens pattern or text, so
`pattern.length + text.length + 1` fuel always suffices): `%` matches any
sequence, `_` any single character, other characters match
ASCII-case-insensitively. -/
def likeFuel : Nat → Str → Str → Bool
  | 0, _, _ => false
  | _ + 1, [], t => t.isEmpty
  | f + 1, '%' :: ps, t =>
      likeFuel f ps t ||
        match t with
        | [] => false
        | _ :: ts => likeFuel f ('%' :: ps) ts
  | f + 1, '_' :: ps, t =>
      (match t with
       | [] => false
       | _ :: ts => likeFuel f ps ts)
  | f + 1, p :: ps, t =>
      (match t with
       | [] => false
       | c :: ts => likeCharEq p c && likeFuel f ps ts)

/-- SQLite `LIKE`. -/
def sqliteLike (p t : Str) : Bool := likeFuel (p.length + t.length + 1) p t

/-- The pattern `f'%{query}%'` built by `search_articles`. -/
def likePat (q : Str) : Str := '%' :: (q ++ ['%'])

/-- `field LIKE '%query%'`. -/
def likeMatch (q field : Str) : Bool := sqliteLike (likePat q) field

/-- A row of the `articles` table (the text fields searched by
`search_articles`; id/url/timestamp do not participate in matching). -/
structure Row where
  title : Str
  author : Str
  content : Str
  summary : Str
deriving DecidableEq

def rowMatchesAll (q : Str) (r : Row) : Bool :=
  likeMatch q r.title || likeMatch q r.author || likeMatch q r.content || likeMatch q r.summary

/-- `DatabaseViewer.search_articles(query, field)`: dispatch on `field`,
raising `ValueError(f"Invalid field: {field}")` before any SQL executes when
the field is not one of the five recognized values; otherwise run the
corresponding `WHERE ... LIKE '%query%'` filter over the table (the
`ORDER BY created_at DESC` only reorders; the db list is taken in that
order). -/
def search_articles (db : List Row) (q : Str) (field : String) : Except String (List Row) :=
  if field = "all" then .ok (db.filter (rowMatchesAll q))
  else if field = "title" then .ok (db.filter (fun r => likeMatch q r.title))
  else if field = "author" then .ok (db.filter (fun r => likeMatch q r.author))
  else if field = "content" then .ok (db.filter (fun r => likeMatch q r.content))
  else if field = "summary" then .ok (db.filter (fun r => likeMatch q r.summary))
  else .error ("Invalid field: " ++ field)

/-- A document with no headings, no meta tags, no selector matches, no
paragraphs and no body. -/
def emptyDoc : Doc :=
  { h1 := none, titleTag := none, ogTitle := none, twitterTitle := none
  , h2 := none, metaAuthor := none, metaArticleAuthor := none
  , authorMatches := fun _ => [], contentMatches := fun _ => []
  , paragraphs := [], body := none }

/-- A document whose only text is a 60-character body. -/
def bodyDoc : Doc :=
  { emptyDoc with body := some ⟨[List.replicate 60 'a']⟩ }

/-- A document whose only text is a single `article` element of exactly 100
characters. -/
def doc100 : Doc :=
  { emptyDoc with
    contentMatches := fun sel =>
      if sel = "article" then [⟨[List.replicate 100 'a']⟩] else [] }

/-- A document with two `article` elements of 150 and 120 characters. -/
def doc150 : Doc :=
  { emptyDoc with
    contentMatches := fun sel =>
      if sel = "article" then [⟨[List.replicate 150 'b']⟩, ⟨[List.replicate 120 'c']⟩] else [] }

/-- A document whose `author` meta tag content is `a@b`. -/
def metaAtDoc : Doc :=
  { emptyDoc with metaAuthor := some (str "a@b") }

/-- A storage layer whose insert always raises. -/
def failingStore : StoredArticle → Except String Nat :=
  fun _ => Except.error "db error"

/-- A database with a single row whose title is uppercase `ABC`. -/
def rowABC : Row := ⟨str "ABC", [], [], []⟩

theorem titleLoop_eq_spec (cands : List (Option Str)) (fb : Str) :
    titleLoop cands fb =
      match (cands.filterMap id).filter (fun t => decide (t.length ≥ 4)) with
      | [] => fb
      | t :: _ => t.take 200 := by
  induction cands with
  | nil => rfl
  | cons c rest ih =>
      cases c with
      | none => simpa [titleLoop] using ih
      | some t =>
          by_cases h : t ≠ [] ∧ t.length > 3
          · have h4 : t.length ≥ 4 := by omega
            simp [titleLoop, h, List.filter, h4]
          · have h4 : ¬ t.length ≥ 4 := by
              intro hc
              apply h
              refine ⟨fun he => ?_, by omega⟩
              rw [he] at hc
              exact absurd hc (by decide)
            simp only [titleLoop, if_neg h, List.filterMap_cons, id]
            rw [List.filter_cons_of_neg (by simpa using h4)]
            exact ih

/-- Claim C3: title resolution evaluates the candidates in the fixed order
h1, document title, og:title, twitter:title, h2; every candidate of length
< 4 is skipped; the first candidate of length ≥ 4 is returned truncated to
200 characters; if none qualifies the result is exactly
`"Article from {host}"` with the host taken from the URL. -/
theorem C3_title_resolution (d : Doc) (url : Str) :
    extract_title d url = titleSpec d url := by
  unfold extract_title titleSpec
  exact titleLoop_eq_spec _ _

/-- Claim C1: a record returned by `scrape_url` has non-empty content of at
most 10000 characters, and content shorter than 50 characters after all
fallbacks yields no record. -/
theorem C1_scrape_content_bounds (d : Doc) (url : Str) :
    (∀ r, scrape_url_extract d url = some r →
      r.content ≠ [] ∧ r.content.length ≤ 10000) ∧
    ((content_after_fallbacks d).length < 50 → scrape_url_extract d url = none) := by
  have hlen : (extract_main_content d).length ≤ 10000 := by
    unfold extract_main_content
    split
    · simp only [List.length_take]
      exact min_le_left _ _
    · decide
  constructor
  · intro r hr
    unfold scrape_url_extract at hr
    split at hr
    · exact absurd hr (by simp)
    · next hcond =>
        push_neg at hcond
        obtain rfl := Option.some.inj hr
        exact ⟨hcond.1, hlen⟩
  · intro h50
    unfold scrape_url_extract
    rw [if_pos]
    right
    unfold extract_main_content
    split
    · simp only [List.length_take]
      omega
    · decide

/-- Witness for C1: a document whose 60-character body yields a record with
the stated bounds, and the empty document (0 characters after all fallbacks)
yields no record. -/
theorem C1_witness :
    (List.replicate 60 'a' : Str) ≠ [] ∧
    (List.replicate 60 'a' : Str).length ≤ 10000 ∧
    scrape_url_extract emptyDoc (str "https://example.com/x") = none := by
  have h1 := (C1_scrape_content_bounds bodyDoc (str "https://example.com/x")).1
    ⟨str "Article from example.com", str "Unknown", List.replicate 60 'a',
      str "https://example.com/x"⟩ (by decide)
  have h2 := (C1_scrape_content_bounds emptyDoc (str "https://example.com/x")).2
    (by decide)
  exact ⟨h1.1, h1.2, h2⟩

theorem collectArticles_foldl (l : List TaskResult) (acc : List ArticleRec) :
    l.foldl (fun acc r => match r with | .ok a => acc ++ [a] | _ => acc) acc
      = acc ++ l.filterMap TaskResult.record? := by
  induction l generalizing acc with
  | nil => simp
  | cons r l ih =>
      cases r <;> simp [ih, TaskResult.record?]

theorem length_filterMap_record (l : List TaskResult) :
    (l.filterMap TaskResult.record?).length = l.countP TaskResult.isOk := by
  induction l with
  | nil => rfl
  | cons r l ih =>
      cases r <;> simp [TaskResult.record?, TaskResult.isOk, List.countP_cons, ih]

/-- Claim C5: the batch scrape returns exactly the records of the items that
succeeded, in particular its length equals the number of successful items;
items failing by `None` or by exception are dropped without affecting
siblings (the collection loop is a total function of the task results). -/
theorem C5_batch_keeps_successes (scrape : Str → TaskResult) (urls : List Str) :
    scrape_multiple_urls scrape urls = (urls.map scrape).filterMap TaskResult.record? ∧
    (scrape_multiple_urls scrape urls).length = (urls.map scrape).countP TaskResult.isOk := by
  have h : scrape_multiple_urls scrape urls
      = (urls.map scrape).filterMap TaskResult.record? := by
    unfold scrape_multiple_urls collectArticles
    simpa using collectArticles_foldl (urls.map scrape) []
  exact ⟨h, by rw [h, length_filterMap_record]⟩

theorem dispatch_invariant (k n : Nat) (s : DispatchState)
    (h : DispatchReachable k n s) : s.available + s.inflight = k := by
  have h' : Relation.ReflTransGen DispatchStep (initState k n) s := h
  clear h
  induction h' with
  | refl => simp [initState]
  | tail _ step ih =>
      cases step with
      | acquire ha hp => dsimp only; omega
      | finish hr => dsimp only; omega

/-- Claim C6: with concurrency limit `k` and `n > k` pending items, every
state the dispatcher can reach has at most `k` fetches in flight (a pending
item may only enter while the semaphore counter is positive). -/
theorem C6_concurrency_bound (k n : Nat) (hkn : k < n) (s : DispatchState)
    (h : DispatchReachable k n s) : s.inflight ≤ k := by
  have := dispatch_invariant k n s h
  omega

/-- Witness for C6: with limit 3 and 10 items, after one acquire step the
dispatcher has 1 fetch in flight, which is at most 3. -/
theorem C6_witness : (DispatchState.mk 2 1 9 0).inflight ≤ 3 :=
  C6_concurrency_bound 3 10 (by omega) _
    (Relation.ReflTransGen.single
      (DispatchStep.acquire (initState 3 10) (by decide) (by decide)))

/-- Counterexample for C8: a storage layer that raises on every insert makes
`process_articles` return normally with an empty id list — the failure is
caught by the per-article `try/except ... continue` and never reaches the
caller, contradicting the claimed propagation. -/
theorem C8_counterexample :
    failingStore (enrich none ⟨str "T", str "A", [], str "https://e.com"⟩)
      = Except.error "db error" ∧
    process_articles failingStore none [⟨str "T", str "A", [], str "https://e.com"⟩]
      = Except.ok [] :=
  ⟨rfl, rfl⟩

theorem process_articles_foldl (store : StoredArticle → Except String Nat)
    (summarize : Option (Str → Except Unit Str)) (l : List ArticleRec)
    (acc : List Nat) :
    l.foldl
      (fun ids a =>
        match store (enrich summarize a) with
        | .ok i => ids ++ [i]
        | .error _ => ids) acc
      = acc ++ l.filterMap (fun a => (store (enrich summarize a)).toOption) := by
  induction l generalizing acc with
  | nil => simp
  | cons a l ih =>
      cases hs : store (enrich summarize a) <;>
        simp [hs, ih, Except.toOption]

/-- Claim C8 amended: when storing an article raises, `process_articles`
catches the exception, skips that article's id and continues with the rest;
the batch workflow always returns normally with exactly the ids of the
articles whose store succeeded — a storage failure is never propagated to
its caller. -/
theorem C8_amended (store : StoredArticle → Except String Nat)
    (summarize : Option (Str → Except Unit Str)) (articles : List ArticleRec) :
    process_articles store summarize articles =
      Except.ok (articles.filterMap (fun a => (store (enrich summarize a)).toOption)) := by
  unfold process_articles
  rw [process_articles_foldl]
  simp

/-- Counterexample for C9: on the empty document the content is empty after
the selector pass, the paragraph fallback and the body fallback, yet
`_extract_main_content` returns the non-empty success string
`"No content extracted"`, not a failure value. -/
theorem C9_counterexample :
    content_after_fallbacks emptyDoc = [] ∧
    extract_main_content emptyDoc = str "No content extracted" ∧
    extract_main_content emptyDoc ≠ [] :=
  ⟨rfl, rfl, by decide⟩

/-- Claim C9 amended: when the content is empty after all fallbacks,
`_extract_main_content` returns the sentinel text `"No content extracted"`
(a success value); the discard then happens in `scrape_url`, whose 50-character
minimum rejects the sentinel, so no record is produced. -/
theorem C9_amended (d : Doc) (url : Str) (h : content_after_fallbacks d = []) :
    extract_main_content d = str "No content extracted" ∧
    scrape_url_extract d url = none := by
  have hmc : extract_main_content d = str "No content extracted" := by
    unfold extract_main_content
    rw [if_neg]
    simp [h]
  refine ⟨hmc, ?_⟩
  unfold scrape_url_extract
  rw [if_pos]
  right
  rw [hmc]
  decide

/-- Witness for C9 amended at the empty document. -/
theorem C9_witness :
    extract_main_content emptyDoc = str "No content extracted" ∧
    scrape_url_extract emptyDoc (str "https://example.com/") = none :=
  C9_amended emptyDoc (str "https://example.com/") (by decide)

theorem contentFold_spec (l : List Str) (acc : Str × Nat) (hacc : acc.2 = acc.1.length) :
    (l.foldl contentStep acc).2 = (l.foldl contentStep acc).1.length ∧
    ((l.foldl contentStep acc).1 = acc.1 ∨
      ((l.foldl contentStep acc).1 ∈ l ∧ 100 < (l.foldl contentStep acc).1.length)) ∧
    (∀ t ∈ l, 100 < t.length → t.length ≤ (l.foldl contentStep acc).1.length) ∧
    acc.1.length ≤ (l.foldl contentStep acc).1.length := by
  induction l generalizing acc with
  | nil => exact ⟨hacc, Or.inl rfl, by simp, le_refl _⟩
  | cons t l ih =>
      simp only [List.foldl_cons]
      by_cases hc : t.length > acc.2 ∧ t.length > 100
      · have hstep : contentStep acc t = (t, t.length) := by
          simp [contentStep, hc]
        rw [hstep]
        obtain ⟨A, B, C, D⟩ := ih (t, t.length) rfl
        refine ⟨A, ?_, ?_, ?_⟩
        · rcases B with B | ⟨Bm, Bl⟩
          · right
            refine ⟨?_, ?_⟩
            · rw [B]; exact List.mem_cons_self t l
            · rw [B]; exact hc.2
          · exact Or.inr ⟨List.mem_cons_of_mem _ Bm, Bl⟩
        · intro u hu hu100
          rcases List.mem_cons.mp hu with rfl | hu'
          · exact D
          · exact C u hu' hu100
        · have h1 : acc.1.length < t.length := by omega
          exact le_trans (le_of_lt h1) D
      · have hstep : contentStep acc t = acc := by
          simp only [contentStep, if_neg hc]
        rw [hstep]
        obtain ⟨A, B, C, D⟩ := ih acc hacc
        refine ⟨A, ?_, ?_, D⟩
        · rcases B with B | ⟨Bm, Bl⟩
          · exact Or.inl B
          · exact Or.inr ⟨List.mem_cons_of_mem _ Bm, Bl⟩
        · intro u hu hu100
          rcases List.mem_cons.mp hu with rfl | hu'
          · have hle : u.length ≤ acc.2 := by
              by_contra hgt
              exact hc ⟨by omega, hu100⟩
            have := D
            omega
          · exact C u hu' hu100

/-- Claim C2 amended: the best candidate of the selector pass is the single
longest visible text of length strictly greater than 100 among all elements
matching any selector (first seen wins ties); a span of exactly 100
characters does not qualify, and when no span exceeds 100 characters the
best candidate is empty. -/
theorem C2_amended (d : Doc) :
    ((bestSelectorPass d).1 = [] → ∀ t ∈ contentCandidateTexts d, t.length ≤ 100) ∧
    ((bestSelectorPass d).1 ≠ [] →
      (bestSelectorPass d).1 ∈ contentCandidateTexts d ∧
      100 < (bestSelectorPass d).1.length ∧
      ∀ t ∈ contentCandidateTexts d, t.length ≤ (bestSelectorPass d).1.length) := by
  have hbs : bestSelectorPass d = (contentCandidateTexts d).foldl contentStep ([], 0) := rfl
  obtain ⟨A, B, C, D⟩ := contentFold_spec (contentCandidateTexts d) ([], 0) rfl
  rw [← hbs] at B C
  constructor
  · intro h0 t ht
    by_contra h100
    push_neg at h100
    have hle := C t ht h100
    simp only [h0, List.length_nil] at hle
    omega
  · intro hne
    rcases B with B | ⟨Bm, Bl⟩
    · exact absurd B hne
    · refine ⟨Bm, Bl, ?_⟩
      intro t ht
      by_cases h100 : 100 < t.length
      · exact C t ht h100
      · have := Bl
        omega

set_option maxRecDepth 4000 in
/-- Counterexample for C2: a single `article` element of exactly 100
characters matches a selector, yet the selector pass keeps the empty best
candidate (the code requires length strictly greater than 100), and the
final content is the sentinel, not the 100-character span. -/
theorem C2_counterexample :
    (List.replicate 100 'a' : Str) ∈ contentCandidateTexts doc100 ∧
    (List.replicate 100 'a' : Str).length = 100 ∧
    (bestSelectorPass doc100).1 = [] ∧
    extract_main_content doc100 = str "No content extracted" := by
  refine ⟨by decide, by decide, by decide, by decide⟩

set_option maxRecDepth 4000 in
/-- Witness for C2 amended: with a 150- and a 120-character `article`
element, the selector pass picks the 150-character one, which exceeds 100
and dominates the other candidate; and with a single 100-character element,
every candidate has length at most 100. -/
theorem C2_witness :
    (bestSelectorPass doc150).1 ∈ contentCandidateTexts doc150 ∧
    100 < (bestSelectorPass doc150).1.length ∧
    (List.replicate 120 'c' : Str).length ≤ (bestSelectorPass doc150).1.length ∧
    (List.replicate 100 'a' : Str).length ≤ 100 := by
  have h := (C2_amended doc150).2 (by decide)
  exact ⟨h.1, h.2.1, h.2.2 _ (by decide), ((C2_amended doc100).1 (by decide)) _ (by decide)⟩

theorem authorFromCss_spec (d : Doc) :
    (authorFromCss d ∈ cssAuthorTexts d ∧ cssAuthorAccept (authorFromCss d) = true) ∨
    authorFromCss d = str "Unknown" := by
  unfold authorFromCss
  cases hf : (cssAuthorTexts d).find? cssAuthorAccept with
  | none => exact Or.inr rfl
  | some a => exact Or.inl ⟨List.mem_of_find?_eq_some hf, List.find?_some hf⟩

theorem authorFromCss_unknown (d : Doc)
    (h : ∀ t ∈ cssAuthorTexts d, cssAuthorAccept t = false) :
    authorFromCss d = str "Unknown" := by
  unfold authorFromCss
  rw [List.find?_eq_none.mpr]
  intro t ht
  simp [h t ht]

theorem cssAuthorAccept_props (a : Str) (h : cssAuthorAccept a = true) :
    2 < a.length ∧ a.length < 100 ∧ hasDisallowedChar a = false := by
  simp only [cssAuthorAccept, Bool.and_eq_true, Bool.not_eq_true',
    decide_eq_true_eq] at h
  exact ⟨h.1.2, h.1.1.2, h.2⟩

theorem extract_author_meta_none (d : Doc) (h : d.metaAuthor = none) :
    extract_author d = authorAfterMeta1 d := by
  unfold extract_author
  rw [h]

theorem extract_author_meta_ok (d : Doc) (a : Str) (h : d.metaAuthor = some a)
    (hok : a ≠ [] ∧ a.length < 100) : extract_author d = a := by
  unfold extract_author
  rw [h]
  exact if_pos hok

theorem extract_author_meta_bad (d : Doc) (a : Str) (h : d.metaAuthor = some a)
    (hok : ¬(a ≠ [] ∧ a.length < 100)) : extract_author d = authorAfterMeta1 d := by
  unfold extract_author
  rw [h]
  exact if_neg hok

theorem authorAfterMeta1_none (d : Doc) (h : d.metaArticleAuthor = none) :
    authorAfterMeta1 d = authorFromCss d := by
  unfold authorAfterMeta1
  rw [h]

theorem authorAfterMeta1_ok (d : Doc) (a : Str) (h : d.metaArticleAuthor = some a)
    (hok : a ≠ [] ∧ a.length < 100) : authorAfterMeta1 d = a := by
  unfold authorAfterMeta1
  rw [h]
  exact if_pos hok

theorem authorAfterMeta1_bad (d : Doc) (a : Str) (h : d.metaArticleAuthor = some a)
    (hok : ¬(a ≠ [] ∧ a.length < 100)) : authorAfterMeta1 d = authorFromCss d := by
  unfold authorAfterMeta1
  rw [h]
  exact if_neg hok

/-- Claim C4 amended: the disallowed-character filter applies only to
CSS-pattern candidates. The author returned is either an accepted meta-tag
value (non-empty and shorter than 100 characters, with no character
filtering), or an accepted CSS-pattern text (length strictly between 2 and
100 and free of disallowed characters), or exactly `"Unknown"`; and when no
strategy yields an accepted candidate, the author is exactly `"Unknown"`. -/
theorem C4_amended (d : Doc) :
    ((d.metaAuthor = some (extract_author d) ∧ extract_author d ≠ [] ∧
        (extract_author d).length < 100) ∨
     (d.metaArticleAuthor = some (extract_author d) ∧ extract_author d ≠ [] ∧
        (extract_author d).length < 100) ∨
     (extract_author d ∈ cssAuthorTexts d ∧ 2 < (extract_author d).length ∧
        (extract_author d).length < 100 ∧
        hasDisallowedChar (extract_author d) = false) ∨
     extract_author d = str "Unknown") ∧
    ((∀ a, d.metaAuthor = some a → a = [] ∨ 100 ≤ a.length) →
     (∀ a, d.metaArticleAuthor = some a → a = [] ∨ 100 ≤ a.length) →
     (∀ t ∈ cssAuthorTexts d, cssAuthorAccept t = false) →
     extract_author d = str "Unknown") := by
  have hcss : (authorFromCss d ∈ cssAuthorTexts d ∧ 2 < (authorFromCss d).length ∧
      (authorFromCss d).length < 100 ∧ hasDisallowedChar (authorFromCss d) = false) ∨
      authorFromCss d = str "Unknown" := by
    rcases authorFromCss_spec d with ⟨hm, ha⟩ | hu
    · obtain ⟨h1, h2, h3⟩ := cssAuthorAccept_props _ ha
      exact Or.inl ⟨hm, h1, h2, h3⟩
    · exact Or.inr hu
  have fromCss : ∀ he : extract_author d = authorFromCss d,
      (extract_author d ∈ cssAuthorTexts d ∧ 2 < (extract_author d).length ∧
        (extract_author d).length < 100 ∧
        hasDisallowedChar (extract_author d) = false) ∨
      extract_author d = str "Unknown" := by
    intro he
    rw [he]
    exact hcss
  constructor
  · cases hma : d.metaAuthor with
    | some a =>
        by_cases hok : a ≠ [] ∧ a.length < 100
        · have he := extract_author_meta_ok d a hma hok
          rw [he]
          exact Or.inl ⟨rfl, hok.1, hok.2⟩
        · have he := extract_author_meta_bad d a hma hok
          cases hma2 : d.metaArticleAuthor with
          | some b =>
              by_cases hok2 : b ≠ [] ∧ b.length < 100
              · rw [he, authorAfterMeta1_ok d b hma2 hok2]
                exact Or.inr (Or.inl ⟨rfl, hok2.1, hok2.2⟩)
              · rcases fromCss (he.trans (authorAfterMeta1_bad d b hma2 hok2)) with h | h
                · exact Or.inr (Or.inr (Or.inl h))
                · exact Or.inr (Or.inr (Or.inr h))
          | none =>
              rcases fromCss (he.trans (authorAfterMeta1_none d hma2)) with h | h
              · exact Or.inr (Or.inr (Or.inl h))
              · exact Or.inr (Or.inr (Or.inr h))
    | none =>
        have he := extract_author_meta_none d hma
        cases hma2 : d.metaArticleAuthor with
        | some b =>
            by_cases hok2 : b ≠ [] ∧ b.length < 100
            · rw [he, authorAfterMeta1_ok d b hma2 hok2]
              exact Or.inr (Or.inl ⟨rfl, hok2.1, hok2.2⟩)
            · rcases fromCss (he.trans (authorAfterMeta1_bad d b hma2 hok2)) with h | h
              · exact Or.inr (Or.inr (Or.inl h))
              · exact Or.inr (Or.inr (Or.inr h))
        | none =>
            rcases fromCss (he.trans (authorAfterMeta1_none d hma2)) with h | h
            · exact Or.inr (Or.inr (Or.inl h))
            · exact Or.inr (Or.inr (Or.inr h))
  · intro hm1 hm2 hc
    have hu := authorFromCss_unknown d hc
    have ham : authorAfterMeta1 d = str "Unknown" := by
      cases hma2 : d.metaArticleAuthor with
      | some b =>
          have hbad : ¬(b ≠ [] ∧ b.length < 100) := by
            rintro ⟨hb1, hb2⟩
            rcases hm2 b hma2 with h | h
            · exact hb1 h
            · omega
          rw [authorAfterMeta1_bad d b hma2 hbad]
          exact hu
      | none =>
          rw [authorAfterMeta1_none d hma2]
          exact hu
    cases hma : d.metaAuthor with
    | some a =>
        have hbad : ¬(a ≠ [] ∧ a.length < 100) := by
          rintro ⟨ha1, ha2⟩
          rcases hm1 a hma with h | h
          · exact ha1 h
          · omega
        rw [extract_author_meta_bad d a hma hbad]
        exact ham
    | none =>
        rw [extract_author_meta_none d hma]
        exact ham

/-- Counterexample for C4: the `author` meta tag value `a@b` contains the
disallowed character `@` yet is returned as the author — the meta-tag
strategy performs no disallowed-character check. -/
theorem C4_counterexample :
    extract_author metaAtDoc = str "a@b" ∧
    '@' ∈ str "a@b" ∧ '@' ∈ disallowedAuthorChars :=
  ⟨rfl, by decide, by decide⟩

/-- Witness for C4 amended: on the empty document every strategy fails and
the author is exactly `"Unknown"`. -/
theorem C4_witness : extract_author emptyDoc = str "Unknown" :=
  (C4_amended emptyDoc).2 (fun a h => Option.noConfusion h)
    (fun a h => Option.noConfusion h) (by decide)

/-- Counterexample for C10: searching field `title` for `abc` returns the
row titled `ABC` (SQLite `LIKE` is ASCII-case-insensitive), even though
`abc` is not a substring of `ABC`. -/
theorem C10_counterexample :
    search_articles [rowABC] (str "abc") "title" = Except.ok [rowABC] ∧
    ¬ str "abc" <:+: rowABC.title :=
  ⟨rfl, by decide⟩

/-- Claim C10 amended: a field argument outside the five recognized values
makes `search_articles` raise `ValueError` without executing any search; for
each recognized field the result holds exactly the rows of the table whose
searched field (any of the four for `all`) matches `'%query%'` under SQLite
`LIKE` semantics — ASCII-case-insensitive containment, with `%`/`_` in the
query acting as wildcards. -/
theorem C10_amended (db : List Row) (q : Str) (field : String) :
    (field ∉ (["all", "title", "author", "content", "summary"] : List String) →
      search_articles db q field = Except.error ("Invalid field: " ++ field)) ∧
    (∀ l, search_articles db q "all" = Except.ok l →
      ∀ r, r ∈ l ↔ r ∈ db ∧ rowMatchesAll q r = true) ∧
    (∀ l, search_articles db q "title" = Except.ok l →
      ∀ r, r ∈ l ↔ r ∈ db ∧ likeMatch q r.title = true) ∧
    (∀ l, search_articles db q "author" = Except.ok l →
      ∀ r, r ∈ l ↔ r ∈ db ∧ likeMatch q r.author = true) ∧
    (∀ l, search_articles db q "content" = Except.ok l →
      ∀ r, r ∈ l ↔ r ∈ db ∧ likeMatch q r.content = true) ∧
    (∀ l, search_articles db q "summary" = Except.ok l →
      ∀ r, r ∈ l ↔ r ∈ db ∧ likeMatch q r.summary = true) := by
  refine ⟨?_, ?_, ?_, ?_, ?_, ?_⟩
  · intro h
    simp only [List.mem_cons, List.not_mem_nil, or_false, not_or] at h
    obtain ⟨h1, h2, h3, h4, h5⟩ := h
    unfold search_articles
    rw [if_neg h1, if_neg h2, if_neg h3, if_neg h4, if_neg h5]
  all_goals
    intro l hl r
    simp only [search_articles, reduceIte] at hl
    obtain rfl := Except.ok.inj hl
    simp [List.mem_filter]

/-- Witness for C10 amended: the unrecognized field `id` raises, and the
uppercase-titled row is returned for the lowercase query. -/
theorem C10_witness :
    search_articles ([] : List Row) [] "id" = Except.error ("Invalid field: " ++ "id") ∧
    (rowABC ∈ ([rowABC] : List Row) ∧ likeMatch (str "abc") rowABC.title = true) :=
  ⟨(C10_amended [] [] "id").1 (by decide),
   ((C10_amended [rowABC] (str "abc") "title").2.2.1 [rowABC] rfl rowABC).mp
     (by decide)⟩

theorem lowerChar_cases (c : Char) :
    lowerChar c = c ∨
    (c ∈ (['A', 'B', 'C', 'D', 'E', 'F', 'G', 'H', 'I', 'J', 'K', 'L', 'M', 'N', 'O', 'P', 'Q', 'R', 'S', 'T', 'U', 'V', 'W', 'X', 'Y', 'Z'] : List Char) ∧
      lowerChar c ∈ (['a', 'b', 'c', 'd', 'e', 'f', 'g', 'h', 'i', 'j', 'k', 'l', 'm', 'n', 'o', 'p', 'q', 'r', 's', 't', 'u', 'v', 'w', 'x', 'y', 'z'] : List Char)) := by
  by_cases hc : c ∈ (['A', 'B', 'C', 'D', 'E', 'F', 'G', 'H', 'I', 'J', 'K', 'L', 'M', 'N', 'O', 'P', 'Q', 'R', 'S', 'T', 'U', 'V', 'W', 'X', 'Y', 'Z'] : List Char)
  · right
    refine ⟨hc, ?_⟩
    fin_cases hc <;> decide
  · left
    simp only [List.mem_cons, List.not_mem_nil, or_false, not_or] at hc
    obtain ⟨h1, h2, h3, h4, h5, h6, h7, h8, h9, h10, h11, h12, h13, h14, h15, h16, h17, h18, h19, h20, h21, h22, h23, h24, h25, h26⟩ := hc
    unfold lowerChar
    rw [if_neg h1, if_neg h2, if_neg h3, if_neg h4, if_neg h5, if_neg h6, if_neg h7, if_neg h8, if_neg h9, if_neg h10, if_neg h11, if_neg h12, if_neg h13, if_neg h14, if_neg h15, if_neg h16, if_neg h17, if_neg h18, if_neg h19, if_neg h20, if_neg h21, if_neg h22, if_neg h23, if_neg h24, if_neg h25, if_neg h26]

theorem lowerChar_of_lower (c : Char)
    (h : c ∈ (['a', 'b', 'c', 'd', 'e', 'f', 'g', 'h', 'i', 'j', 'k', 'l', 'm', 'n', 'o', 'p', 'q', 'r', 's', 't', 'u', 'v', 'w', 'x', 'y', 'z'] : List Char)) : lowerChar c = c := by
  fin_cases h <;> rfl

theorem lowerChar_idem (c : Char) : lowerChar (lowerChar c) = lowerChar c := by
  rcases lowerChar_cases c with h | ⟨_, h2⟩
  · rw [h]
    exact h
  · exact lowerChar_of_lower _ h2

theorem isPySpace_lowerChar (c : Char) : isPySpace (lowerChar c) = isPySpace c := by
  rcases lowerChar_cases c with h | ⟨h1, h2⟩
  · rw [h]
  · have e1 : isPySpace c = false := by fin_cases h1 <;> rfl
    have e2 : isPySpace (lowerChar c) = false := by
      revert h2
      generalize lowerChar c = x
      intro h2
      fin_cases h2 <;> rfl
    rw [e1, e2]

theorem eq_of_lowerChar_eq (x c : Char)
    (hx : x ∉ (['a', 'b', 'c', 'd', 'e', 'f', 'g', 'h', 'i', 'j', 'k', 'l', 'm', 'n', 'o', 'p', 'q', 'r', 's', 't', 'u', 'v', 'w', 'x', 'y', 'z'] : List Char)) (h : lowerChar c = x) : c = x := by
  rcases lowerChar_cases c with h0 | ⟨_, h2⟩
  · exact h0.symm.trans h
  · exact absurd (h ▸ h2) hx

theorem collapseWs_head? : ∀ (rest : Str) (c : Char),
    (collapseWs (c :: rest)).head? = some (if isPySpace c then ' ' else c) := by
  intro rest
  induction rest with
  | nil =>
      intro c
      by_cases h : isPySpace c <;> simp [collapseWs, h]
  | cons d rest' ih =>
      intro c
      by_cases h : isPySpace c
      · by_cases h2 : isPySpace d
        · have he : collapseWs (c :: d :: rest') = collapseWs (d :: rest') := by
            simp [collapseWs, h, h2]
          rw [he, ih d]
          simp [h, h2]
        · simp [collapseWs, h, h2]
      · simp [collapseWs, h]

theorem collapseWs_clean : ∀ (s : Str),
    (∀ c ∈ collapseWs s, isPySpace c = true → c = ' ') ∧
    List.Chain' (fun a b => ¬(isPySpace a = true ∧ isPySpace b = true)) (collapseWs s) := by
  intro s
  induction s with
  | nil => exact ⟨by simp [collapseWs], by simp [collapseWs]⟩
  | cons c rest ih =>
      cases rest with
      | nil =>
          by_cases h : isPySpace c
          · refine ⟨?_, ?_⟩ <;> simp [collapseWs, h]
          · refine ⟨?_, ?_⟩ <;> simp [collapseWs, h]
      | cons d rest' =>
          by_cases h : isPySpace c
          · by_cases h2 : isPySpace d
            · have he : collapseWs (c :: d :: rest') = collapseWs (d :: rest') := by
                simp [collapseWs, h, h2]
              rw [he]
              exact ih
            · have he : collapseWs (c :: d :: rest') = ' ' :: collapseWs (d :: rest') := by
                simp [collapseWs, h, h2]
              rw [he]
              refine ⟨?_, ?_⟩
              · intro x hx hws
                rcases List.mem_cons.mp hx with rfl | hx'
                · rfl
                · exact ih.1 x hx' hws
              · rw [List.chain'_cons']
                refine ⟨?_, ih.2⟩
                intro y hy
                rw [collapseWs_head? rest' d] at hy
                obtain rfl := Option.some.inj hy
                rw [if_neg h2]
                intro hcon
                exact absurd hcon.2 (by simp [h2])
          · have he : collapseWs (c :: d :: rest') = c :: collapseWs (d :: rest') := by
              simp [collapseWs, h]
            rw [he]
            refine ⟨?_, ?_⟩
            · intro x hx hws
              rcases List.mem_cons.mp hx with rfl | hx'
              · exact absurd hws (by simp [h])
              · exact ih.1 x hx' hws
            · rw [List.chain'_cons']
              refine ⟨?_, ih.2⟩
              intro y hy
              intro hcon
              exact absurd hcon.1 (by simp [h])

theorem mem_collapseWs : ∀ (s : Str) (c : Char), c ∈ collapseWs s → c = ' ' ∨ c ∈ s := by
  intro s
  induction s with
  | nil => intro c hc; simp [collapseWs] at hc
  | cons a rest ih =>
      cases rest with
      | nil =>
          intro c hc
          by_cases h : isPySpace a
          · simp [collapseWs, h] at hc
            exact Or.inl hc
          · simp [collapseWs, h] at hc
            exact Or.inr (by simp [hc])
      | cons d rest' =>
          intro c hc
          by_cases h : isPySpace a
          · by_cases h2 : isPySpace d
            · rw [show collapseWs (a :: d :: rest') = collapseWs (d :: rest') from by
                simp [collapseWs, h, h2]] at hc
              rcases ih c hc with h' | h'
              · exact Or.inl h'
              · exact Or.inr (List.mem_cons_of_mem _ h')
            · rw [show collapseWs (a :: d :: rest') = ' ' :: collapseWs (d :: rest') from by
                simp [collapseWs, h, h2]] at hc
              rcases List.mem_cons.mp hc with rfl | hc'
              · exact Or.inl rfl
              · rcases ih c hc' with h' | h'
                · exact Or.inl h'
                · exact Or.inr (List.mem_cons_of_mem _ h')
          · rw [show collapseWs (a :: d :: rest') = a :: collapseWs (d :: rest') from by
              simp [collapseWs, h]] at hc
            rcases List.mem_cons.mp hc with rfl | hc'
            · exact Or.inr (List.mem_cons_self _ _)
            · rcases ih c hc' with h' | h'
              · exact Or.inl h'
              · exact Or.inr (List.mem_cons_of_mem _ h')

theorem collapseWs_eq_self : ∀ (s : Str),
    (∀ c ∈ s, isPySpace c = true → c = ' ') →
    List.Chain' (fun a b => ¬(isPySpace a = true ∧ isPySpace b = true)) s →
    collapseWs s = s := by
  intro s
  induction s with
  | nil => intro _ _; rfl
  | cons c rest ih =>
      cases rest with
      | nil =>
          intro h1 _
          by_cases h : isPySpace c
          · have hc := h1 c (List.mem_cons_self _ _) (by simp [h])
            simp [collapseWs, h, hc]
          · simp [collapseWs, h]
      | cons d rest' =>
          intro h1 h2
          rw [List.chain'_cons] at h2
          obtain ⟨hrel, h2'⟩ := h2
          have h1' : ∀ x ∈ d :: rest', isPySpace x = true → x = ' ' :=
            fun x hx => h1 x (List.mem_cons_of_mem _ hx)
          by_cases h : isPySpace c
          · have hd : ¬ isPySpace d := by
              intro hd
              exact hrel ⟨by simp [h], by simp [hd]⟩
            have hc := h1 c (List.mem_cons_self _ _) (by simp [h])
            rw [show collapseWs (c :: d :: rest') = ' ' :: collapseWs (d :: rest') from by
              simp [collapseWs, h, hd]]
            rw [ih h1' h2', hc]
          · rw [show collapseWs (c :: d :: rest') = c :: collapseWs (d :: rest') from by
              simp [collapseWs, h]]
            rw [ih h1' h2']

theorem collapseNl_eq_self : ∀ (s : Str), '\n' ∉ s → collapseNl s = s := by
  intro s
  induction s with
  | nil => intro _; rfl
  | cons c rest ih =>
      cases rest with
      | nil => intro _; rfl
      | cons d rest' =>
          intro h
          have hnd : ¬(c = '\n' ∧ d = '\n') := by
            rintro ⟨rfl, _⟩
            exact h (List.mem_cons_self _ _)
          rw [show collapseNl (c :: d :: rest') = c :: collapseNl (d :: rest') from by
            simp [collapseNl, hnd]]
          rw [ih (fun hm => h (List.mem_cons_of_mem _ hm))]

theorem mem_collapseNl : ∀ (s : Str) (c : Char), c ∈ collapseNl s → c ∈ s := by
  intro s
  induction s with
  | nil => intro c hc; simpa [collapseNl] using hc
  | cons a rest ih =>
      cases rest with
      | nil => intro c hc; simpa [collapseNl] using hc
      | cons d rest' =>
          intro c hc
          by_cases hnd : a = '\n' ∧ d = '\n'
          · rw [show collapseNl (a :: d :: rest') = collapseNl (d :: rest') from by
              simp [collapseNl, hnd]] at hc
            exact List.mem_cons_of_mem _ (ih c hc)
          · rw [show collapseNl (a :: d :: rest') = a :: collapseNl (d :: rest') from by
              simp [collapseNl, hnd]] at hc
            rcases List.mem_cons.mp hc with rfl | hc'
            · exact List.mem_cons_self _ _
            · exact List.mem_cons_of_mem _ (ih c hc')

theorem stripAux_eq_self : ∀ (f : Nat) (s : Str), s.length ≤ f →
    '<' ∉ s → '&' ∉ s → stripAux f false s = s := by
  intro f
  induction f with
  | zero =>
      intro s hs _ _
      have h0 : s.length = 0 := by omega
      rw [List.length_eq_zero.mp h0]
      rfl
  | succ f ih =>
      intro s hs h1 h2
      cases s with
      | nil => rfl
      | cons c rest =>
          have hc1 : ¬ c = '<' := fun he => h1 (he ▸ List.mem_cons_self _ _)
          have hc2 : ¬ c = '&' := fun he => h2 (he ▸ List.mem_cons_self _ _)
          rw [show stripAux (f + 1) false (c :: rest)
              = c :: stripAux f false rest from by
            simp [stripAux, hc1, hc2]]
          rw [ih rest (by simp only [List.length_cons] at hs; omega)
            (fun hm => h1 (List.mem_cons_of_mem _ hm))
            (fun hm => h2 (List.mem_cons_of_mem _ hm))]

theorem stripTags_eq_self (s : Str) (h1 : '<' ∉ s) (h2 : '&' ∉ s) :
    stripTags s = s :=
  stripAux_eq_self (s.length + 1) s (by omega) h1 h2

theorem head?_dropWhile : ∀ (p : Char → Bool) (l : Str) (x : Char),
    (l.dropWhile p).head? = some x → p x = false := by
  intro p l
  induction l with
  | nil => intro x h; simp at h
  | cons c rest ih =>
      intro x h
      rw [List.dropWhile_cons] at h
      by_cases hc : p c
      · rw [if_pos hc] at h
        exact ih x h
      · rw [if_neg hc] at h
        obtain rfl := Option.some.inj h
        simpa using hc

theorem getLast?_of_suffix (l₁ l₂ : Str) (h : l₁ <:+ l₂) (hne : l₁ ≠ []) :
    l₂.getLast? = l₁.getLast? := by
  obtain ⟨t, rfl⟩ := h
  rw [List.getLast?_append]
  cases hl : l₁.getLast? with
  | none => exact absurd (List.getLast?_eq_none_iff.mp hl) hne
  | some x => rw [Option.or_some]

theorem pyStrip_last_not_ws (s : Str) : ∀ x, (pyStrip s).getLast? = some x →
    isPySpace x = false := by
  intro x h
  unfold pyStrip at h
  rw [List.getLast?_reverse] at h
  exact head?_dropWhile _ _ x h

theorem pyStrip_head_not_ws (s : Str) : ∀ x, (pyStrip s).head? = some x →
    isPySpace x = false := by
  intro x h
  unfold pyStrip at h
  rw [List.head?_reverse] at h
  have hsuf : ((s.dropWhile isPySpace).reverse.dropWhile isPySpace)
      <:+ (s.dropWhile isPySpace).reverse := List.dropWhile_suffix _
  have hne : (s.dropWhile isPySpace).reverse.dropWhile isPySpace ≠ [] := by
    intro he
    rw [he] at h
    simp at h
  have he := getLast?_of_suffix _ _ hsuf hne
  rw [← he, List.getLast?_reverse] at h
  exact head?_dropWhile _ _ x h

theorem pyStrip_infixOf (s : Str) : pyStrip s <:+: s := by
  have h1 : s.dropWhile isPySpace <:+ s := List.dropWhile_suffix _
  have h2 : pyStrip s <+: s.dropWhile isPySpace := by
    rw [← List.reverse_suffix]
    have he : (pyStrip s).reverse
        = (s.dropWhile isPySpace).reverse.dropWhile isPySpace := by
      unfold pyStrip
      rw [List.reverse_reverse]
    rw [he]
    exact List.dropWhile_suffix _
  exact h2.isInfix.trans h1.isInfix

theorem pyStrip_eq_self (s : Str)
    (hh : ∀ x, s.head? = some x → isPySpace x = false)
    (hl : ∀ x, s.getLast? = some x → isPySpace x = false) : pyStrip s = s := by
  have e1 : s.dropWhile isPySpace = s := by
    cases s with
    | nil => rfl
    | cons c rest =>
        rw [List.dropWhile_cons, if_neg]
        simp [hh c rfl]
  have e2 : s.reverse.dropWhile isPySpace = s.reverse := by
    cases hrev : s.reverse with
    | nil => rfl
    | cons c rest =>
        rw [List.dropWhile_cons, if_neg]
        have hc : s.getLast? = some c := by
          rw [← List.head?_reverse, hrev]
          rfl
        simp [hl c hc]
  unfold pyStrip
  rw [e1, e2, List.reverse_reverse]

theorem preprocess_text_normed (x : Str) :
    (∀ c ∈ preprocess_text x, isPySpace c = true → c = ' ') ∧
    List.Chain' (fun a b => ¬(isPySpace a = true ∧ isPySpace b = true)) (preprocess_text x) ∧
    (∀ c, (preprocess_text x).head? = some c → isPySpace c = false) ∧
    (∀ c, (preprocess_text x).getLast? = some c → isPySpace c = false) ∧
    lowerStr (preprocess_text x) = preprocess_text x := by
  by_cases hx : x = []
  · subst hx
    refine ⟨?_, ?_, ?_, ?_, ?_⟩ <;> simp [preprocess_text, lowerStr]
  · have he : preprocess_text x
        = lowerStr (collapseNl (pyStrip (collapseWs (stripTags x)))) := by
      unfold preprocess_text
      rw [if_neg hx]
    set z1 := collapseWs (stripTags x) with hz1
    have hz1a : ∀ c ∈ z1, isPySpace c = true → c = ' ' := (collapseWs_clean _).1
    have hz1b : List.Chain' (fun a b => ¬(isPySpace a = true ∧ isPySpace b = true)) z1 :=
      (collapseWs_clean _).2
    set z2 := pyStrip z1 with hz2
    have hz2inf : z2 <:+: z1 := pyStrip_infixOf z1
    have hz2a : ∀ c ∈ z2, isPySpace c = true → c = ' ' :=
      fun c hc => hz1a c (hz2inf.sublist.subset hc)
    have hz2b : List.Chain' (fun a b => ¬(isPySpace a = true ∧ isPySpace b = true)) z2 :=
      hz1b.infix hz2inf
    have hnl : '\n' ∉ z2 := by
      intro hmem
      have := hz2a '\n' hmem (by decide)
      exact absurd this (by decide)
    have hz3 : collapseNl z2 = z2 := collapseNl_eq_self z2 hnl
    rw [he, hz3]
    refine ⟨?_, ?_, ?_, ?_, ?_⟩
    · intro c hc hws
      rw [lowerStr, List.mem_map] at hc
      obtain ⟨c₀, hc₀, rfl⟩ := hc
      rw [isPySpace_lowerChar] at hws
      rw [hz2a c₀ hc₀ hws]
      rfl
    · rw [lowerStr, List.chain'_map]
      refine hz2b.imp ?_
      intro a b h
      rw [isPySpace_lowerChar, isPySpace_lowerChar]
      exact h
    · intro c h
      rw [lowerStr, List.head?_map] at h
      cases hz : z2.head? with
      | none => rw [hz] at h; simp at h
      | some c₀ =>
          rw [hz] at h
          obtain rfl := Option.some.inj h
          rw [isPySpace_lowerChar]
          exact pyStrip_head_not_ws z1 c₀ hz
    · intro c h
      rw [lowerStr, List.getLast?_map] at h
      cases hz : z2.getLast? with
      | none => rw [hz] at h; simp at h
      | some c₀ =>
          rw [hz] at h
          obtain rfl := Option.some.inj h
          rw [isPySpace_lowerChar]
          exact pyStrip_last_not_ws z1 c₀ hz
    · rw [lowerStr, lowerStr, List.map_map]
      exact List.map_congr_left (fun a _ => lowerChar_idem a)

theorem preprocess_no_special (x : Str) (h1 : '<' ∉ x) (h2 : '&' ∉ x) :
    '<' ∉ preprocess_text x ∧ '&' ∉ preprocess_text x := by
  by_cases hx : x = []
  · subst hx
    constructor <;> simp [preprocess_text]
  · have he : preprocess_text x
        = lowerStr (collapseNl (pyStrip (collapseWs (stripTags x)))) := by
      unfold preprocess_text
      rw [if_neg hx]
    rw [he, stripTags_eq_self x h1 h2]
    constructor <;> intro hmem
    · rw [lowerStr, List.mem_map] at hmem
      obtain ⟨c₀, hc₀, heq⟩ := hmem
      obtain rfl := eq_of_lowerChar_eq '<' c₀ (by decide) heq
      have hc₁ := mem_collapseNl _ _ hc₀
      have hc₂ := (pyStrip_infixOf (collapseWs x)).sublist.subset hc₁
      rcases mem_collapseWs x '<' hc₂ with h | h
      · exact absurd h (by decide)
      · exact h1 h
    · rw [lowerStr, List.mem_map] at hmem
      obtain ⟨c₀, hc₀, heq⟩ := hmem
      obtain rfl := eq_of_lowerChar_eq '&' c₀ (by decide) heq
      have hc₁ := mem_collapseNl _ _ hc₀
      have hc₂ := (pyStrip_infixOf (collapseWs x)).sublist.subset hc₁
      rcases mem_collapseWs x '&' hc₂ with h | h
      · exact absurd h (by decide)
      · exact h2 h

/-- Counterexample for C7: the text normalizer is not idempotent — the first
pass decodes `&lt;`/`&gt;` into literal markup, which the second pass then
strips as a tag. -/
theorem C7_counterexample :
    preprocess_text (preprocess_text (str "&lt;p&gt;hi"))
      ≠ preprocess_text (str "&lt;p&gt;hi") ∧
    preprocess_text (str "&lt;p&gt;hi") = str "<p>hi" ∧
    preprocess_text (preprocess_text (str "&lt;p&gt;hi")) = str "hi" := by
  refine ⟨by decide, by decide, by decide⟩

/-- Claim C7 amended: the normalizer is idempotent on every input containing
neither `<` nor `&` (inputs whose stripping can not regenerate markup or
entities); for such x, `normalize(normalize(x)) = normalize(x)`. -/
theorem C7_amended (x : Str) (h1 : '<' ∉ x) (h2 : '&' ∉ x) :
    preprocess_text (preprocess_text x) = preprocess_text x := by
  obtain ⟨n1, n2, n3, n4, n5⟩ := preprocess_text_normed x
  obtain ⟨s1, s2⟩ := preprocess_no_special x h1 h2
  set y := preprocess_text x with hy
  by_cases hyn : y = []
  · rw [hyn]
    rfl
  · have hnl : '\n' ∉ y := by
      intro hm
      have := n1 '\n' hm (by decide)
      exact absurd this (by decide)
    unfold preprocess_text
    rw [if_neg hyn]
    rw [stripTags_eq_self y s1 s2]
    rw [collapseWs_eq_self y n1 n2]
    rw [pyStrip_eq_self y n3 n4]
    rw [collapseNl_eq_self y hnl]
    exact n5

/-- Witness for C7 amended: a concrete markup-free input on which the
normalizer is verified idempotent. -/
theorem C7_witness :
    preprocess_text (preprocess_text (str "  Hello  World "))
      = preprocess_text (str "  Hello  World ") ∧
    preprocess_text (str "  Hello  World ") = str "hello world" :=
  ⟨C7_amended (str "  Hello  World ") (by decide) (by decide), by decide⟩
